import Mathlib

/-!
Shallow embedding of `src/transcoder.py` (mmutils): the batch transcoding
scheduler, its task handles, and the pipeline-handle construction and
termination logic.

External effects (process spawning, filesystem access, wall-clock time) are
modelled by explicit oracles, event logs and time parameters; Python
exceptions are modelled with `Except`.  Weights are Python ints, modelled as
`Int`; wall-clock times are modelled as `ℚ`.
-/

/-- Python exceptions that the modelled code can raise. -/
inductive PyErr where
  | attributeError
  | spawnError
  | zeroDivisionError
deriving DecidableEq, Repr

/-- Observable external effects of handle construction and termination:
filesystem writes (`makedirs`, `unlinkOut`) and process-lifecycle events. -/
inductive Event where
  | makedirs
  | spawnDecoder
  | spawnEncoder
  | killDecoder
  | termDecoder
  | termEncoder
  | unlinkOut
deriving DecidableEq, Repr

/-- A started pipeline handle (a `PipeEncoderHandle` instance as the
scheduler sees it): `hid` models Python object identity, `weight` the
handle's effective weight, `skipped` whether `skip_init` replaced
`poll`/`wait`/`kill` by the `DummySubprocess` stubs (skip-existing or
dry-run). -/
structure Handle where
  hid : Nat
  weight : Int
  skipped : Bool
deriving DecidableEq, Repr

/-- A not-yet-started task (an `Encoder` instance): `jid` models Python
object identity, `weight` the nominal weight
(`os.stat(flac_file).st_size`, transcoder.py line 282). -/
structure Job where
  jid : Nat
  weight : Int
deriving DecidableEq, Repr

/-- `poll` as the scheduler calls it on a handle: a handle on which
`skip_init` ran always reports immediate success (`DummySubprocess.poll`,
line 41); otherwise the result is the underlying `subprocess.Popen.poll`,
supplied as the oracle value `procStatus`. -/
def Handle.poll (h : Handle) (procStatus : Option Int) : Option Int :=
  if h.skipped then some 0 else procStatus

/-- `wait` on a handle, analogous to `Handle.poll` (lines 44-45, 67-74). -/
def Handle.wait (h : Handle) (procExit : Int) : Int :=
  if h.skipped then 0 else procExit

/-- `TaskHandle.term` (lines 76-81) invoked on a `SubprocessHandle`: the
body is `return super().term()`, and the next class in the method
resolution order after `TaskHandle` is `subprocess.Popen`, which defines
`poll`, `wait`, `terminate` and `kill` but no method named `term`.  The
lookup therefore raises `AttributeError` before any signal is sent to the
process. -/
def taskHandleTerm : Except PyErr Unit :=
  Except.error PyErr.attributeError

/-- `PipeEncoderHandle.term` (lines 194-200).  `if not self.weight: return`
short-circuits zero-weight handles.  Otherwise the source executes
`self.in_pipe.term()`, then `super().term()`, then
`os.unlink(self.out_file)`; both `term` delegations resolve through
`TaskHandle.term` (see `taskHandleTerm`), so the first raises
`AttributeError` and the remaining statements are unreachable.  The result
is the list of emitted events paired with the outcome. -/
def pipeEncoderTerm (h : Handle) : List Event × Except PyErr Unit :=
  if h.weight = 0 then ([], Except.ok ())
  else
    match taskHandleTerm with
    | Except.error e => ([], Except.error e)
    | Except.ok _ =>
      match taskHandleTerm with
      | Except.error e => ([Event.termDecoder], Except.error e)
      | Except.ok _ =>
        ([Event.termDecoder, Event.termEncoder, Event.unlinkOut], Except.ok ())

/-- `PipeEncoderHandle.__init__` (lines 160-192) together with
`EncoderHandle._ensure_output_file` (lines 126-133) and
`EncoderHandle._get_flac_decoder` (lines 135-148).

Environment flags: `outFileExists` models `os.path.isfile(out_file)`,
`outDirExists` models `os.path.isdir(out_dir)`, `decFail`/`encFail` model
the decoder/encoder `subprocess.Popen` constructors raising.  Control flow:
`_ensure_output_file` runs `os.makedirs` when the output directory is
missing; the skip-existing check then short-circuits with a zero-weight
`skip_init` handle; in dry-run both subprocesses are `DummySubprocess`
stubs and nothing is spawned; otherwise the decoder is spawned, the encoder
is spawned inside `try`, and on failure the decoder is killed
(`in_pipe.kill()`, which resolves to `subprocess.Popen.kill`) before the
exception propagates. -/
def pipeEncoderInit (outFileExists outDirExists skipExisting dryRun : Bool)
    (weight : Int) (decFail encFail : Bool) (hid : Nat) :
    List Event × Except PyErr Handle :=
  let ev0 : List Event := if outDirExists then [] else [Event.makedirs]
  if outFileExists && skipExisting then
    (ev0, Except.ok ⟨hid, 0, true⟩)
  else if dryRun then
    (ev0, Except.ok ⟨hid, weight, true⟩)
  else if decFail then
    (ev0, Except.error PyErr.spawnError)
  else if encFail then
    (ev0 ++ [Event.spawnDecoder, Event.killDecoder], Except.error PyErr.spawnError)
  else
    (ev0 ++ [Event.spawnDecoder, Event.spawnEncoder], Except.ok ⟨hid, weight, false⟩)

/-- A decoder process is leaked by an event log when it was spawned but
never killed. -/
def decoderLeaked (evs : List Event) : Bool :=
  evs.contains Event.spawnDecoder && !(evs.contains Event.killDecoder)

/-- `Scheduler` state (lines 406-414). -/
structure Scheduler where
  pending_tasks : List Job
  running_tasks : List Handle
  max_tasks : Nat
  started_at : ℚ
  tasks_completed : Nat
  total_weight : Int
  done_weight : Int
deriving DecidableEq, Repr

/-- `Scheduler.__init__` (lines 407-414): `time.time()` is the parameter
`now`. -/
def Scheduler.mkInit (parallel_tasks : Nat) (now : ℚ) : Scheduler :=
  ⟨[], [], parallel_tasks, now, 0, 0, 0⟩

/-- `Scheduler.schedule` (lines 457-461): append to `pending_tasks`, add
the nominal weight to `total_weight`. -/
def Scheduler.schedule (s : Scheduler) (j : Job) : Scheduler :=
  { s with
    pending_tasks := s.pending_tasks ++ [j],
    total_weight := s.total_weight + j.weight }

/-- Result of the completion sweep in `Scheduler.poll` (lines 426-435). -/
structure SweepResult where
  keep : List Handle
  completed : Nat
  doneDelta : Int
  changed : Bool
deriving Repr

/-- First phase of `Scheduler.poll` (lines 426-435): poll every running
handle; each terminal handle is removed, `tasks_completed` is incremented
and its weight accumulated into `done_weight`; `changed` is set only for
handles that returned 0 (a nonzero status is logged but does not set
`changed`).  `pollF h` is the `subprocess.Popen.poll` oracle for `h`. -/
def sweepRunning (pollF : Handle → Option Int) : List Handle → SweepResult
  | [] => ⟨[], 0, 0, false⟩
  | h :: rest =>
    match h.poll (pollF h) with
    | none =>
      ⟨h :: (sweepRunning pollF rest).keep, (sweepRunning pollF rest).completed,
        (sweepRunning pollF rest).doneDelta, (sweepRunning pollF rest).changed⟩
    | some rc =>
      ⟨(sweepRunning pollF rest).keep, (sweepRunning pollF rest).completed + 1,
        (sweepRunning pollF rest).doneDelta + h.weight,
        (rc == 0) || (sweepRunning pollF rest).changed⟩

/-- Result of the admission loop in `Scheduler.poll` (lines 437-450). -/
structure StartLoopResult where
  pendingRev : List Job
  running : List Handle
  total : Int
  attempted : List Job
  started : List Job
  changed : Bool
deriving Repr

/-- Second phase of `Scheduler.poll` (lines 437-450), run on the pending
list reversed so that `self.pending_tasks.pop()` (pop from the end) is the
head of `rev`.  While the running list is shorter than `max_tasks` and
jobs remain, pop the most recently scheduled job and call it (`startF`,
modelling `new_task()`); on an exception (`none`) the job is dropped and
the loop continues with `total_weight` untouched; on success the nominal
weight is replaced by the handle's effective weight in `total_weight` and
the handle appended to the running list.  `attempted` records every popped
job in pop order, `started` those whose start succeeded. -/
def startLoop (startF : Job → Option Handle) (maxT : Nat) :
    List Job → List Handle → Int → StartLoopResult
  | [], run, tot => ⟨[], run, tot, [], [], false⟩
  | j :: rest, run, tot =>
    if run.length < maxT then
      match startF j with
      | none =>
        let r := startLoop startF maxT rest run tot
        ⟨r.pendingRev, r.running, r.total, j :: r.attempted, r.started, r.changed⟩
      | some h =>
        let r := startLoop startF maxT rest (run ++ [h]) (tot - j.weight + h.weight)
        ⟨r.pendingRev, r.running, r.total, j :: r.attempted, j :: r.started, true⟩
    else
      ⟨j :: rest, run, tot, [], [], false⟩

/-- Result of one `Scheduler.poll` call. -/
structure PollResult where
  sched : Scheduler
  attempted : List Job
  started : List Job
  changed : Bool
  rv : Bool
deriving Repr

/-- `Scheduler.poll` (lines 424-455): sweep the running handles, then admit
pending jobs, then return whether work is outstanding
(`len(self.running_tasks) > 0 or len(self.pending_tasks) > 0`). -/
def Scheduler.poll (s : Scheduler) (pollF : Handle → Option Int)
    (startF : Job → Option Handle) : PollResult :=
  let sw := sweepRunning pollF s.running_tasks
  let ad := startLoop startF s.max_tasks s.pending_tasks.reverse sw.keep s.total_weight
  let pending' := ad.pendingRev.reverse
  { sched := { s with
      running_tasks := ad.running,
      pending_tasks := pending',
      tasks_completed := s.tasks_completed + sw.completed,
      done_weight := s.done_weight + sw.doneDelta,
      total_weight := ad.total },
    attempted := ad.attempted,
    started := ad.started,
    changed := sw.changed || ad.changed,
    rv := !ad.running.isEmpty || !pending'.isEmpty }

/-- The loop body of `Scheduler.graceful_termination` (lines 418-419):
`task.term()` on each running handle in order; `invoked` accumulates the
handles on which `term` was invoked.  A raised exception aborts the loop
and propagates, in which case the two list-clearing assignments (lines
420-421) never execute and the scheduler state is left unchanged. -/
def termSweep (s : Scheduler) : List Handle → List Handle →
    List Handle × Except PyErr Scheduler
  | [], invoked =>
    (invoked, Except.ok { s with running_tasks := [], pending_tasks := [] })
  | h :: rest, invoked =>
    match (pipeEncoderTerm h).2 with
    | Except.ok _ => termSweep s rest (invoked ++ [h])
    | Except.error e => (invoked ++ [h], Except.error e)

/-- `Scheduler.graceful_termination` (lines 416-422). -/
def Scheduler.graceful_termination (s : Scheduler) :
    List Handle × Except PyErr Scheduler :=
  termSweep s s.running_tasks []

/-- `Scheduler.guesstimate` (lines 467-478): `time.time()` is the parameter
`curr_time`.  The method mutates nothing, so the returned scheduler is the
receiver.  When `tasks_completed < 10 or done_weight == 0` the ETA is
`None`; otherwise `rate = done_weight / delta` raises `ZeroDivisionError`
when `delta` is zero, and else the ETA is
`(total_weight - done_weight) / rate`. -/
def Scheduler.guesstimate (s : Scheduler) (curr_time : ℚ) :
    Scheduler × Except PyErr (Nat × Nat × Nat × Option ℚ) :=
  let delta := curr_time - s.started_at
  (s,
    if s.tasks_completed < 10 ∨ s.done_weight = 0 then
      Except.ok (s.tasks_completed, s.pending_tasks.length,
        s.running_tasks.length, none)
    else if delta = 0 then
      Except.error PyErr.zeroDivisionError
    else
      Except.ok (s.tasks_completed, s.pending_tasks.length,
        s.running_tasks.length,
        some (((s.total_weight : ℚ) - (s.done_weight : ℚ)) /
          ((s.done_weight : ℚ) / delta))))

/-- One external interaction with the scheduler: a `schedule` call or a
`poll` call with its start/poll oracles. -/
inductive Op where
  | schedule (j : Job)
  | poll (pollF : Handle → Option Int) (startF : Job → Option Handle)

/-- Validity of an interaction, per the data model: scheduled jobs carry a
non-negative nominal weight (`os.stat(...).st_size`), and every handle a
start call produces has a non-negative effective weight that is at most the
job's nominal weight (the effective weight is either the nominal weight or
0 for skipped jobs). -/
def ValidOp : Op → Prop
  | Op.schedule j => 0 ≤ j.weight
  | Op.poll _ startF =>
    ∀ j h, startF j = some h → 0 ≤ h.weight ∧ h.weight ≤ j.weight

/-- Run one interaction; the second component is the list of jobs started
during it. -/
def runOp (s : Scheduler) : Op → Scheduler × List Job
  | Op.schedule j => (s.schedule j, [])
  | Op.poll pollF startF =>
    ((s.poll pollF startF).sched, (s.poll pollF startF).started)

/-- Run a sequence of interactions, accumulating the started jobs in
order. -/
def runOpsLog : Scheduler → List Op → Scheduler × List Job
  | s, [] => (s, [])
  | s, op :: rest =>
    ((runOpsLog (runOp s op).1 rest).1,
      (runOp s op).2 ++ (runOpsLog (runOp s op).1 rest).2)

/-- The scheduler state reached from a fresh scheduler by a sequence of
interactions. -/
def runState (maxT : Nat) (t0 : ℚ) (ops : List Op) : Scheduler :=
  (runOpsLog (Scheduler.mkInit maxT t0) ops).1

/-- Sum of nominal weights of a list of jobs. -/
def sumJobW : List Job → Int
  | [] => 0
  | j :: rest => j.weight + sumJobW rest

/-- Sum of effective weights of a list of handles. -/
def sumHandleW : List Handle → Int
  | [] => 0
  | h :: rest => h.weight + sumHandleW rest

/-- The weight-accounting invariant maintained by the scheduler: all
pending nominal weights and running effective weights are non-negative,
and their total is bounded by `total_weight - done_weight`. -/
def WeightInv (s : Scheduler) : Prop :=
  (∀ j ∈ s.pending_tasks, 0 ≤ j.weight) ∧
  (∀ h ∈ s.running_tasks, 0 ≤ h.weight) ∧
  sumHandleW s.running_tasks + sumJobW s.pending_tasks ≤
    s.total_weight - s.done_weight

/-- Process-status oracle: every underlying process has exited successfully. -/
def pollAllDone : Handle → Option Int := fun _ => some 0

/-- Start oracle: every start succeeds and the handle keeps the job's
nominal weight (the ordinary non-skipped, non-dry-run case). -/
def startNominal : Job → Option Handle := fun j => some ⟨j.jid, j.weight, false⟩

/-- Start oracle: a job with non-negative nominal weight starts with that
weight; any other start raises. -/
def startNonneg : Job → Option Handle := fun j =>
  if 0 ≤ j.weight then some ⟨j.jid, j.weight, false⟩ else none

/-- The §8 scenario interaction sequence: three jobs of weights 10, 20, 30
scheduled in that order, then three poll cycles in which every started
process completes by the next poll. -/
def scenarioLifo : List Op :=
  [Op.schedule ⟨1, 10⟩, Op.schedule ⟨2, 20⟩, Op.schedule ⟨3, 30⟩,
   Op.poll pollAllDone startNominal, Op.poll pollAllDone startNominal,
   Op.poll pollAllDone startNominal]

/-- Ten unit-weight jobs scheduled and then driven to completion in two
poll cycles (fixture for the estimate claims). -/
def scenarioTen : List Op :=
  [Op.schedule ⟨1, 1⟩, Op.schedule ⟨2, 1⟩, Op.schedule ⟨3, 1⟩,
   Op.schedule ⟨4, 1⟩, Op.schedule ⟨5, 1⟩, Op.schedule ⟨6, 1⟩,
   Op.schedule ⟨7, 1⟩, Op.schedule ⟨8, 1⟩, Op.schedule ⟨9, 1⟩,
   Op.schedule ⟨10, 1⟩,
   Op.poll pollAllDone startNonneg, Op.poll pollAllDone startNonneg]

theorem sumJobW_append (a b : List Job) :
    sumJobW (a ++ b) = sumJobW a + sumJobW b := by
  induction a with
  | nil => simp [sumJobW]
  | cons j rest ih => simp [sumJobW, ih]; ring

theorem sumJobW_reverse (l : List Job) : sumJobW l.reverse = sumJobW l := by
  induction l with
  | nil => rfl
  | cons j rest ih => simp [List.reverse_cons, sumJobW_append, sumJobW, ih]; ring

theorem sumHandleW_append (a b : List Handle) :
    sumHandleW (a ++ b) = sumHandleW a + sumHandleW b := by
  induction a with
  | nil => simp [sumHandleW]
  | cons h rest ih => simp [sumHandleW, ih]; ring

theorem sumJobW_nonneg {l : List Job} (h : ∀ j ∈ l, 0 ≤ j.weight) :
    0 ≤ sumJobW l := by
  induction l with
  | nil => simp [sumJobW]
  | cons j rest ih =>
    have h1 := h j (by simp)
    have h2 := ih (fun x hx => h x (by simp [hx]))
    simp only [sumJobW]; omega

theorem sumHandleW_nonneg {l : List Handle} (h : ∀ x ∈ l, 0 ≤ x.weight) :
    0 ≤ sumHandleW l := by
  induction l with
  | nil => simp [sumHandleW]
  | cons x rest ih =>
    have h1 := h x (by simp)
    have h2 := ih (fun y hy => h y (by simp [hy]))
    simp only [sumHandleW]; omega

theorem sweepRunning_keep_length (pollF : Handle → Option Int) (l : List Handle) :
    (sweepRunning pollF l).keep.length ≤ l.length := by
  induction l with
  | nil => simp [sweepRunning]
  | cons h rest ih =>
    cases hp : h.poll (pollF h) <;> simp [sweepRunning, hp] <;> omega

theorem sweepRunning_keep_mem (pollF : Handle → Option Int) {l : List Handle}
    {h : Handle} (hm : h ∈ (sweepRunning pollF l).keep) : h ∈ l := by
  induction l with
  | nil => simp [sweepRunning] at hm
  | cons x rest ih =>
    cases hp : x.poll (pollF x) with
    | none =>
      simp only [sweepRunning, hp] at hm
      rcases List.mem_cons.mp hm with rfl | hm'
      · exact List.mem_cons_self _ _
      · exact List.mem_cons_of_mem _ (ih hm')
    | some rc =>
      simp only [sweepRunning, hp] at hm
      exact List.mem_cons_of_mem _ (ih hm)

theorem sweepRunning_sum (pollF : Handle → Option Int) (l : List Handle) :
    sumHandleW (sweepRunning pollF l).keep + (sweepRunning pollF l).doneDelta
      = sumHandleW l := by
  induction l with
  | nil => simp [sweepRunning, sumHandleW]
  | cons h rest ih =>
    cases hp : h.poll (pollF h) <;> simp [sweepRunning, hp, sumHandleW] <;> omega

theorem sweepRunning_doneDelta_nonneg (pollF : Handle → Option Int)
    {l : List Handle} (hw : ∀ h ∈ l, 0 ≤ h.weight) :
    0 ≤ (sweepRunning pollF l).doneDelta := by
  induction l with
  | nil => simp [sweepRunning]
  | cons h rest ih =>
    have h1 := hw h (by simp)
    have h2 := ih (fun x hx => hw x (by simp [hx]))
    cases hp : h.poll (pollF h) <;> simp [sweepRunning, hp] <;> omega

theorem startLoop_running_length (startF : Job → Option Handle) (maxT : Nat)
    (rev : List Job) :
    ∀ (run : List Handle) (tot : Int), run.length ≤ maxT →
      (startLoop startF maxT rev run tot).running.length ≤ maxT := by
  induction rev with
  | nil => intro run tot h; simpa [startLoop] using h
  | cons j rest ih =>
    intro run tot h
    by_cases hlen : run.length < maxT
    · cases hs : startF j with
      | none => simpa [startLoop, hlen, hs] using ih run tot h
      | some hd =>
        have h2 : (run ++ [hd]).length ≤ maxT := by
          simp only [List.length_append, List.length_singleton]; omega
        simpa [startLoop, hlen, hs] using
          ih (run ++ [hd]) (tot - j.weight + hd.weight) h2
    · simpa [startLoop, hlen] using h

theorem startLoop_attempted_take (startF : Job → Option Handle) (maxT : Nat)
    (rev : List Job) :
    ∀ (run : List Handle) (tot : Int),
      ∃ k, (startLoop startF maxT rev run tot).attempted = rev.take k := by
  induction rev with
  | nil => intro run tot; exact ⟨0, by simp [startLoop]⟩
  | cons j rest ih =>
    intro run tot
    by_cases hlen : run.length < maxT
    · cases hs : startF j with
      | none =>
        obtain ⟨k, hk⟩ := ih run tot
        exact ⟨k + 1, by simp [startLoop, hlen, hs, hk]⟩
      | some hd =>
        obtain ⟨k, hk⟩ := ih (run ++ [hd]) (tot - j.weight + hd.weight)
        exact ⟨k + 1, by simp [startLoop, hlen, hs, hk]⟩
    · exact ⟨0, by simp [startLoop, hlen]⟩

theorem startLoop_inv (startF : Job → Option Handle) (maxT : Nat)
    (hsf : ∀ j h, startF j = some h → 0 ≤ h.weight) (D : Int) (rev : List Job) :
    ∀ (run : List Handle) (tot : Int),
      (∀ j ∈ rev, 0 ≤ j.weight) → (∀ h ∈ run, 0 ≤ h.weight) →
      sumHandleW run + sumJobW rev ≤ tot - D →
      (∀ j ∈ (startLoop startF maxT rev run tot).pendingRev, 0 ≤ j.weight) ∧
      (∀ h ∈ (startLoop startF maxT rev run tot).running, 0 ≤ h.weight) ∧
      sumHandleW (startLoop startF maxT rev run tot).running +
          sumJobW (startLoop startF maxT rev run tot).pendingRev ≤
        (startLoop startF maxT rev run tot).total - D := by
  induction rev with
  | nil =>
    intro run tot hrev hrun hsum
    refine ⟨by simp [startLoop], ?_, ?_⟩
    · intro h hm; exact hrun h (by simpa [startLoop] using hm)
    · simpa [startLoop, sumJobW] using hsum
  | cons j rest ih =>
    intro run tot hrev hrun hsum
    have hrest : ∀ x ∈ rest, 0 ≤ x.weight :=
      fun x hx => hrev x (List.mem_cons_of_mem _ hx)
    have hj : 0 ≤ j.weight := hrev j (List.mem_cons_self _ _)
    by_cases hlen : run.length < maxT
    · cases hs : startF j with
      | none =>
        have hsum' : sumHandleW run + sumJobW rest ≤ tot - D := by
          simp only [sumJobW] at hsum; omega
        simpa [startLoop, hlen, hs] using ih run tot hrest hrun hsum'
      | some hd =>
        have hhd : 0 ≤ hd.weight := hsf j hd hs
        have hrun' : ∀ x ∈ run ++ [hd], 0 ≤ x.weight := by
          intro x hx
          rcases List.mem_append.mp hx with hx' | hx'
          · exact hrun x hx'
          · rcases List.mem_singleton.mp hx' with rfl; exact hhd
        have hsum' : sumHandleW (run ++ [hd]) + sumJobW rest ≤
            (tot - j.weight + hd.weight) - D := by
          rw [sumHandleW_append]
          simp only [sumHandleW, sumJobW] at hsum ⊢
          omega
        simpa [startLoop, hlen, hs] using
          ih (run ++ [hd]) (tot - j.weight + hd.weight) hrest hrun' hsum'
    · refine ⟨?_, ?_, ?_⟩
      · intro x hx; exact hrev x (by simpa [startLoop, hlen] using hx)
      · intro x hx; exact hrun x (by simpa [startLoop, hlen] using hx)
      · simpa [startLoop, hlen] using hsum

theorem poll_sched_pending (s : Scheduler) (pf : Handle → Option Int)
    (sf : Job → Option Handle) :
    ((s.poll pf sf).sched).pending_tasks =
      (startLoop sf s.max_tasks s.pending_tasks.reverse
        (sweepRunning pf s.running_tasks).keep s.total_weight).pendingRev.reverse := rfl

theorem poll_sched_running (s : Scheduler) (pf : Handle → Option Int)
    (sf : Job → Option Handle) :
    ((s.poll pf sf).sched).running_tasks =
      (startLoop sf s.max_tasks s.pending_tasks.reverse
        (sweepRunning pf s.running_tasks).keep s.total_weight).running := rfl

theorem poll_sched_total (s : Scheduler) (pf : Handle → Option Int)
    (sf : Job → Option Handle) :
    ((s.poll pf sf).sched).total_weight =
      (startLoop sf s.max_tasks s.pending_tasks.reverse
        (sweepRunning pf s.running_tasks).keep s.total_weight).total := rfl

theorem poll_sched_done (s : Scheduler) (pf : Handle → Option Int)
    (sf : Job → Option Handle) :
    ((s.poll pf sf).sched).done_weight =
      s.done_weight + (sweepRunning pf s.running_tasks).doneDelta := rfl

theorem poll_sched_completed (s : Scheduler) (pf : Handle → Option Int)
    (sf : Job → Option Handle) :
    ((s.poll pf sf).sched).tasks_completed =
      s.tasks_completed + (sweepRunning pf s.running_tasks).completed := rfl

theorem poll_sched_max (s : Scheduler) (pf : Handle → Option Int)
    (sf : Job → Option Handle) :
    ((s.poll pf sf).sched).max_tasks = s.max_tasks := rfl

theorem poll_sched_started_at (s : Scheduler) (pf : Handle → Option Int)
    (sf : Job → Option Handle) :
    ((s.poll pf sf).sched).started_at = s.started_at := rfl

theorem poll_attempted_eq (s : Scheduler) (pf : Handle → Option Int)
    (sf : Job → Option Handle) :
    (s.poll pf sf).attempted =
      (startLoop sf s.max_tasks s.pending_tasks.reverse
        (sweepRunning pf s.running_tasks).keep s.total_weight).attempted := rfl

theorem poll_running_le (s : Scheduler) (pf : Handle → Option Int)
    (sf : Job → Option Handle) (h : s.running_tasks.length ≤ s.max_tasks) :
    ((s.poll pf sf).sched).running_tasks.length ≤ s.max_tasks := by
  rw [poll_sched_running]
  exact startLoop_running_length sf s.max_tasks s.pending_tasks.reverse
    (sweepRunning pf s.running_tasks).keep s.total_weight
    (le_trans (sweepRunning_keep_length pf s.running_tasks) h)

theorem poll_weightInv (s : Scheduler) (pf : Handle → Option Int)
    (sf : Job → Option Handle)
    (hsf : ∀ j h, sf j = some h → 0 ≤ h.weight) (hinv : WeightInv s) :
    WeightInv ((s.poll pf sf).sched) := by
  obtain ⟨hp, hr, hsum⟩ := hinv
  have hkeepmem : ∀ h ∈ (sweepRunning pf s.running_tasks).keep, 0 ≤ h.weight :=
    fun h hm => hr h (sweepRunning_keep_mem pf hm)
  have hsw := sweepRunning_sum pf s.running_tasks
  have hsum' : sumHandleW (sweepRunning pf s.running_tasks).keep +
      sumJobW s.pending_tasks.reverse ≤
      s.total_weight - (s.done_weight + (sweepRunning pf s.running_tasks).doneDelta) := by
    rw [sumJobW_reverse]; omega
  have hrev : ∀ j ∈ s.pending_tasks.reverse, 0 ≤ j.weight :=
    fun j hj => hp j (List.mem_reverse.mp hj)
  obtain ⟨H1, H2, H3⟩ := startLoop_inv sf s.max_tasks hsf
    (s.done_weight + (sweepRunning pf s.running_tasks).doneDelta)
    s.pending_tasks.reverse (sweepRunning pf s.running_tasks).keep
    s.total_weight hrev hkeepmem hsum'
  refine ⟨?_, ?_, ?_⟩
  · intro j hj
    rw [poll_sched_pending] at hj
    exact H1 j (List.mem_reverse.mp hj)
  · intro h hm
    rw [poll_sched_running] at hm
    exact H2 h hm
  · rw [poll_sched_pending, poll_sched_running, poll_sched_total, poll_sched_done,
      sumJobW_reverse]
    exact H3

theorem schedule_weightInv (s : Scheduler) (j : Job) (hj : 0 ≤ j.weight)
    (hinv : WeightInv s) : WeightInv (s.schedule j) := by
  obtain ⟨hp, hr, hsum⟩ := hinv
  refine ⟨?_, ?_, ?_⟩
  · intro x hx
    rw [show (s.schedule j).pending_tasks = s.pending_tasks ++ [j] from rfl] at hx
    rcases List.mem_append.mp hx with hx' | hx'
    · exact hp x hx'
    · rcases List.mem_singleton.mp hx' with rfl; exact hj
  · intro h hm
    exact hr h (by simpa [Scheduler.schedule] using hm)
  · simp only [Scheduler.schedule, sumJobW_append, sumJobW]
    omega

theorem runOpsLog_cons_state (s : Scheduler) (op : Op) (rest : List Op) :
    (runOpsLog s (op :: rest)).1 = (runOpsLog (runOp s op).1 rest).1 := rfl

theorem runOpsLog_weightInv (ops : List Op) :
    ∀ s : Scheduler, (∀ op ∈ ops, ValidOp op) → WeightInv s →
      WeightInv (runOpsLog s ops).1 := by
  induction ops with
  | nil => intro s _ h; exact h
  | cons op rest ih =>
    intro s hv hinv
    have hv' : ∀ x ∈ rest, ValidOp x := fun x hx => hv x (List.mem_cons_of_mem _ hx)
    have hop : ValidOp op := hv op (List.mem_cons_self _ _)
    rw [runOpsLog_cons_state]
    cases op with
    | schedule j => exact ih _ hv' (schedule_weightInv s j hop hinv)
    | poll pf sf =>
      exact ih _ hv' (poll_weightInv s pf sf (fun j h hjh => (hop j h hjh).1) hinv)

theorem runOpsLog_max (ops : List Op) :
    ∀ s : Scheduler, ((runOpsLog s ops).1).max_tasks = s.max_tasks := by
  induction ops with
  | nil => intro s; rfl
  | cons op rest ih =>
    intro s
    rw [runOpsLog_cons_state, ih]
    cases op <;> rfl

theorem runOpsLog_started_at (ops : List Op) :
    ∀ s : Scheduler, ((runOpsLog s ops).1).started_at = s.started_at := by
  induction ops with
  | nil => intro s; rfl
  | cons op rest ih =>
    intro s
    rw [runOpsLog_cons_state, ih]
    cases op <;> rfl

theorem runOpsLog_running_le (ops : List Op) :
    ∀ s : Scheduler, s.running_tasks.length ≤ s.max_tasks →
      ((runOpsLog s ops).1).running_tasks.length ≤ ((runOpsLog s ops).1).max_tasks := by
  induction ops with
  | nil => intro s h; exact h
  | cons op rest ih =>
    intro s h
    rw [runOpsLog_cons_state]
    cases op with
    | schedule j => exact ih _ h
    | poll pf sf =>
      exact ih _ (le_of_le_of_eq (poll_running_le s pf sf h) (poll_sched_max s pf sf).symm)

theorem weightInv_mkInit (maxT : Nat) (t0 : ℚ) : WeightInv (Scheduler.mkInit maxT t0) := by
  refine ⟨?_, ?_, ?_⟩ <;> simp [Scheduler.mkInit, sumJobW, sumHandleW]

theorem runState_weightInv (maxT : Nat) (t0 : ℚ) (ops : List Op)
    (hv : ∀ op ∈ ops, ValidOp op) : WeightInv (runState maxT t0 ops) :=
  runOpsLog_weightInv ops _ hv (weightInv_mkInit maxT t0)

theorem runState_total_ge_done (maxT : Nat) (t0 : ℚ) (ops : List Op)
    (hv : ∀ op ∈ ops, ValidOp op) :
    (runState maxT t0 ops).done_weight ≤ (runState maxT t0 ops).total_weight := by
  obtain ⟨hp, hr, hsum⟩ := runState_weightInv maxT t0 ops hv
  have h1 := sumJobW_nonneg hp
  have h2 := sumHandleW_nonneg hr
  omega

/-- C1: for every scheduler created with concurrency limit `maxT` and every
sequence of `schedule` and `poll` interactions, the number of handles in
`running_tasks` after a further `poll` call returns is at most `maxT`. -/
theorem claim_C1_running_bounded (maxT : Nat) (t0 : ℚ) (ops : List Op)
    (pf : Handle → Option Int) (sf : Job → Option Handle) :
    (((runState maxT t0 ops).poll pf sf).sched).running_tasks.length ≤ maxT := by
  have h0 : (Scheduler.mkInit maxT t0).running_tasks.length ≤
      (Scheduler.mkInit maxT t0).max_tasks := by
    simp [Scheduler.mkInit]
  have h1 : (runState maxT t0 ops).running_tasks.length ≤
      (runState maxT t0 ops).max_tasks :=
    runOpsLog_running_le ops (Scheduler.mkInit maxT t0) h0
  have h2 := poll_running_le (runState maxT t0 ops) pf sf h1
  have h3 : (runState maxT t0 ops).max_tasks = maxT := runOpsLog_max ops _
  omega

/-- C9: `done_weight` is monotonically non-decreasing across `poll` calls:
in any scheduler state whose running handles all have non-negative weight,
one `poll` call does not decrease `done_weight`, whether the handles that
completed during it exited with status 0 or nonzero. -/
theorem claim_C9_done_monotone (s : Scheduler) (pf : Handle → Option Int)
    (sf : Job → Option Handle) (hw : ∀ h ∈ s.running_tasks, 0 ≤ h.weight) :
    s.done_weight ≤ ((s.poll pf sf).sched).done_weight := by
  rw [poll_sched_done]
  have := sweepRunning_doneDelta_nonneg pf hw
  omega

/-- Witness for C9 at a concrete scheduler with one running handle of
weight 5 that completes with a nonzero (failure) status. -/
theorem claim_C9_witness :
    (∀ h ∈ (Scheduler.mk [] [⟨1, 5, false⟩] 2 0 0 5 0).running_tasks, 0 ≤ h.weight) ∧
    (Scheduler.mk [] [⟨1, 5, false⟩] 2 0 0 5 0).done_weight ≤
      (((Scheduler.mk [] [⟨1, 5, false⟩] 2 0 0 5 0).poll (fun _ => some 1)
        (fun _ => none)).sched).done_weight :=
  ⟨by decide, claim_C9_done_monotone _ _ _ (by decide)⟩

/-- C10: `guesstimate` is a read-only observation: it leaves every state
component unchanged, and a second call with the same current time returns
the same result. -/
theorem claim_C10_guesstimate_pure (s : Scheduler) (t : ℚ) :
    (s.guesstimate t).1 = s ∧
    (s.guesstimate t).1.pending_tasks = s.pending_tasks ∧
    (s.guesstimate t).1.running_tasks = s.running_tasks ∧
    (s.guesstimate t).1.tasks_completed = s.tasks_completed ∧
    (s.guesstimate t).1.done_weight = s.done_weight ∧
    (s.guesstimate t).1.total_weight = s.total_weight ∧
    (s.guesstimate t).1.started_at = s.started_at ∧
    ((s.guesstimate t).1).guesstimate t = s.guesstimate t :=
  ⟨rfl, rfl, rfl, rfl, rfl, rfl, rfl, rfl⟩

/-- C2 (evaluation at the failing input): calling `term` on a handle whose
weight is non-zero raises `AttributeError` (via `taskHandleTerm`) before
any process is signalled and before `os.unlink` runs, so the event log is
empty and the partially-written output file is not removed; on a
zero-weight handle `term` returns without any filesystem operation. -/
theorem claim_C2_term_raises :
    pipeEncoderTerm ⟨1, 5, false⟩ = ([], Except.error PyErr.attributeError) ∧
    pipeEncoderTerm ⟨2, 0, true⟩ = ([], Except.ok ()) :=
  ⟨rfl, rfl⟩

/-- C5 (evaluation at the failing input): `graceful_termination` on a
scheduler with two running handles of non-zero weight and five pending
jobs: the first `term()` call raises `AttributeError` (see
`taskHandleTerm`), so `term` is never invoked on the second handle and the
`running_tasks`/`pending_tasks` clearing assignments never execute. -/
theorem claim_C5_graceful_termination_raises :
    Scheduler.graceful_termination
        ⟨[⟨11, 5⟩, ⟨12, 6⟩, ⟨13, 7⟩, ⟨14, 8⟩, ⟨15, 9⟩],
         [⟨1, 1, false⟩, ⟨2, 2, false⟩], 4, 0, 0, 38, 0⟩ =
      ([⟨1, 1, false⟩], Except.error PyErr.attributeError) := rfl

/-- C3: `poll` admits pending jobs in last-scheduled-runs-first order: the
jobs it pops are an initial segment of the reversed pending list; and in
the §8 scenario (weights 10, 20, 30 scheduled in that order with
`max_tasks = 1`) the jobs are started in the order 30, 20, 10. -/
theorem claim_C3_lifo_admission :
    (∀ (s : Scheduler) (pf : Handle → Option Int) (sf : Job → Option Handle),
      ∃ k, (s.poll pf sf).attempted = s.pending_tasks.reverse.take k) ∧
    (runOpsLog (Scheduler.mkInit 1 0) scenarioLifo).2 =
      [⟨3, 30⟩, ⟨2, 20⟩, ⟨1, 10⟩] := by
  constructor
  · intro s pf sf
    rw [poll_attempted_eq]
    exact startLoop_attempted_take sf s.max_tasks s.pending_tasks.reverse _ _
  · decide

/-- C6: when the skip-existing short-circuit does not apply, the run is not
a dry run, the decoder was spawned and the encoder spawn then fails,
`PipeEncoderHandle.__init__` kills the decoder and propagates the error:
no decoder process is leaked. -/
theorem claim_C6_no_decoder_leak (fEx dEx skip : Bool) (w : Int) (hid : Nat)
    (hns : (fEx && skip) = false) :
    pipeEncoderInit fEx dEx skip false w false true hid =
      ((if dEx then [] else [Event.makedirs]) ++
        [Event.spawnDecoder, Event.killDecoder],
       Except.error PyErr.spawnError) ∧
    decoderLeaked (pipeEncoderInit fEx dEx skip false w false true hid).1
      = false := by
  have h1 : pipeEncoderInit fEx dEx skip false w false true hid =
      ((if dEx then [] else [Event.makedirs]) ++
        [Event.spawnDecoder, Event.killDecoder],
       Except.error PyErr.spawnError) := by
    simp [pipeEncoderInit, hns]
  refine ⟨h1, ?_⟩
  rw [h1]
  cases dEx <;> rfl

/-- Witness for C6: existing output directory, no skip-existing, failing
encoder spawn. -/
theorem claim_C6_witness :
    ((false && false) = false) ∧
    pipeEncoderInit false true false false 5 false true 77 =
      ([Event.spawnDecoder, Event.killDecoder], Except.error PyErr.spawnError) ∧
    decoderLeaked (pipeEncoderInit false true false false 5 false true 77).1
      = false := by
  refine ⟨rfl, ?_, ?_⟩
  · have := (claim_C6_no_decoder_leak false true false 5 77 rfl).1
    simpa using this
  · exact (claim_C6_no_decoder_leak false true false 5 77 rfl).2

/-- C7: starting with skip-existing when the destination output file (and
hence its directory) already exists emits no events — no process spawn, no
filesystem write — and yields a zero-weight `skip_init` handle whose
`poll` and `wait` immediately return 0. -/
theorem claim_C7_skip_existing (dry : Bool) (w : Int) (decFail encFail : Bool)
    (hid : Nat) (dEx : Bool) (hdir : dEx = true) :
    (pipeEncoderInit true dEx true dry w decFail encFail hid).1 = [] ∧
    (pipeEncoderInit true dEx true dry w decFail encFail hid).2 =
      Except.ok ⟨hid, 0, true⟩ ∧
    (∀ o : Option Int, Handle.poll ⟨hid, 0, true⟩ o = some 0) ∧
    (∀ e : Int, Handle.wait ⟨hid, 0, true⟩ e = 0) := by
  subst hdir
  exact ⟨rfl, rfl, fun o => rfl, fun e => rfl⟩

/-- Witness for C7 at concrete inputs. -/
theorem claim_C7_witness :
    (true = true) ∧
    ((pipeEncoderInit true true true false 9 false false 3).1 = [] ∧
     (pipeEncoderInit true true true false 9 false false 3).2 =
       Except.ok ⟨3, 0, true⟩ ∧
     (∀ o : Option Int, Handle.poll ⟨3, 0, true⟩ o = some 0) ∧
     (∀ e : Int, Handle.wait ⟨3, 0, true⟩ e = 0)) :=
  ⟨rfl, claim_C7_skip_existing false 9 false false 3 true rfl⟩

/-- C8: over every valid interaction sequence (scheduled jobs carry
non-negative nominal weights; every started handle has
`0 ≤ effective ≤ nominal`), `done_weight ≤ total_weight` holds in every
reachable state, hence after every `poll`; moreover in a single admission
step a start failure leaves `total_weight` unchanged (the dropped job's
nominal weight is never subtracted), while a successful start replaces the
job's nominal weight by the handle's effective weight. -/
theorem claim_C8_weight_accounting :
    (∀ (maxT : Nat) (t0 : ℚ) (ops : List Op), (∀ op ∈ ops, ValidOp op) →
      (runState maxT t0 ops).done_weight ≤ (runState maxT t0 ops).total_weight) ∧
    (∀ (s : Scheduler) (pf : Handle → Option Int) (sf : Job → Option Handle)
        (j : Job),
      s.pending_tasks = [j] → s.running_tasks.length < s.max_tasks →
      sf j = none →
      ((s.poll pf sf).sched).total_weight = s.total_weight) ∧
    (∀ (s : Scheduler) (pf : Handle → Option Int) (sf : Job → Option Handle)
        (j : Job) (h : Handle),
      s.pending_tasks = [j] → s.running_tasks.length < s.max_tasks →
      sf j = some h →
      ((s.poll pf sf).sched).total_weight =
        s.total_weight - j.weight + h.weight) := by
  refine ⟨fun maxT t0 ops hv => runState_total_ge_done maxT t0 ops hv, ?_, ?_⟩
  · intro s pf sf j hpend hlen hsf
    rw [poll_sched_total, hpend]
    have hkl : (sweepRunning pf s.running_tasks).keep.length < s.max_tasks :=
      lt_of_le_of_lt (sweepRunning_keep_length pf s.running_tasks) hlen
    simp [startLoop, hkl, hsf]
  · intro s pf sf j h hpend hlen hsf
    rw [poll_sched_total, hpend]
    have hkl : (sweepRunning pf s.running_tasks).keep.length < s.max_tasks :=
      lt_of_le_of_lt (sweepRunning_keep_length pf s.running_tasks) hlen
    simp [startLoop, hkl, hsf]

/-- Witness for C8: a valid one-element schedule; a failed start leaving
`total_weight` at 4; a successful start reconciling 4 to the effective
weight 2. -/
theorem claim_C8_witness :
    ((runState 1 0 [Op.schedule ⟨1, 3⟩]).done_weight ≤
      (runState 1 0 [Op.schedule ⟨1, 3⟩]).total_weight) ∧
    (((Scheduler.mk [⟨1, 4⟩] [] 1 0 0 4 0).poll (fun _ => none)
        (fun _ => none)).sched).total_weight =
      (Scheduler.mk [⟨1, 4⟩] [] 1 0 0 4 0).total_weight ∧
    (((Scheduler.mk [⟨1, 4⟩] [] 1 0 0 4 0).poll (fun _ => none)
        (fun _ => some ⟨5, 2, false⟩)).sched).total_weight =
      (Scheduler.mk [⟨1, 4⟩] [] 1 0 0 4 0).total_weight - (4 : Int) + 2 := by
  refine ⟨?_, ?_, ?_⟩
  · exact claim_C8_weight_accounting.1 1 0 [Op.schedule ⟨1, 3⟩]
      (by
        intro op hop
        rcases List.mem_singleton.mp hop with rfl
        exact show (0 : Int) ≤ 3 by norm_num)
  · exact claim_C8_weight_accounting.2.1 _ _ _ ⟨1, 4⟩ rfl (by decide) rfl
  · exact claim_C8_weight_accounting.2.2 _ _ _ ⟨1, 4⟩ ⟨5, 2, false⟩ rfl
      (by decide) rfl

theorem startNonneg_valid :
    ∀ j h, startNonneg j = some h → 0 ≤ h.weight ∧ h.weight ≤ j.weight := by
  intro j h hjh
  unfold startNonneg at hjh
  by_cases hw : 0 ≤ j.weight
  · rw [if_pos hw] at hjh
    injection hjh with h1
    subst h1
    exact ⟨hw, le_refl _⟩
  · rw [if_neg hw] at hjh
    exact absurd hjh (by simp)

theorem scenarioTen_valid : ∀ op ∈ scenarioTen, ValidOp op := by
  intro op hop
  simp only [scenarioTen, List.mem_cons, List.not_mem_nil, or_false] at hop
  rcases hop with rfl|rfl|rfl|rfl|rfl|rfl|rfl|rfl|rfl|rfl|rfl|rfl
  all_goals first
    | exact startNonneg_valid
    | exact show (0 : Int) ≤ 1 by norm_num

/-- C4: `guesstimate` reports an unknown ETA exactly when fewer than 10
tasks have completed or `done_weight` is zero; otherwise, in every state
reachable by a valid interaction sequence, with at least 10 completions,
positive `done_weight` and positive elapsed time, it returns
`(total_weight - done_weight) / (done_weight / elapsed)`, a non-negative
rational. -/
theorem claim_C4_estimate :
    (∀ (s : Scheduler) (t : ℚ),
      (s.guesstimate t).2 = Except.ok (s.tasks_completed,
          s.pending_tasks.length, s.running_tasks.length, none)
        ↔ (s.tasks_completed < 10 ∨ s.done_weight = 0)) ∧
    (∀ (maxT : Nat) (t0 : ℚ) (ops : List Op) (t : ℚ),
      (∀ op ∈ ops, ValidOp op) →
      10 ≤ (runState maxT t0 ops).tasks_completed →
      0 < (runState maxT t0 ops).done_weight →
      0 < t - t0 →
      ((runState maxT t0 ops).guesstimate t).2 =
          Except.ok ((runState maxT t0 ops).tasks_completed,
            (runState maxT t0 ops).pending_tasks.length,
            (runState maxT t0 ops).running_tasks.length,
            some ((((runState maxT t0 ops).total_weight : ℚ) -
                ((runState maxT t0 ops).done_weight : ℚ)) /
              (((runState maxT t0 ops).done_weight : ℚ) / (t - t0)))) ∧
        0 ≤ (((runState maxT t0 ops).total_weight : ℚ) -
              ((runState maxT t0 ops).done_weight : ℚ)) /
            (((runState maxT t0 ops).done_weight : ℚ) / (t - t0))) := by
  constructor
  · intro s t
    by_cases hc : s.tasks_completed < 10 ∨ s.done_weight = 0
    · simp [Scheduler.guesstimate, hc]
    · by_cases hd : t - s.started_at = 0
      · simp [Scheduler.guesstimate, hc, hd]
      · simp [Scheduler.guesstimate, hc, hd]
  · intro maxT t0 ops t hv h10 hdpos htpos
    have hstart : (runState maxT t0 ops).started_at = t0 :=
      runOpsLog_started_at ops _
    have hc : ¬((runState maxT t0 ops).tasks_completed < 10 ∨
        (runState maxT t0 ops).done_weight = 0) := by
      push_neg
      exact ⟨by omega, by omega⟩
    have hd : ¬(t - (runState maxT t0 ops).started_at = 0) := by
      rw [hstart]
      intro h0
      rw [h0] at htpos
      exact lt_irrefl 0 htpos
    have hTD := runState_total_ge_done maxT t0 ops hv
    have hres : ((runState maxT t0 ops).guesstimate t).2 =
        Except.ok ((runState maxT t0 ops).tasks_completed,
          (runState maxT t0 ops).pending_tasks.length,
          (runState maxT t0 ops).running_tasks.length,
          some ((((runState maxT t0 ops).total_weight : ℚ) -
              ((runState maxT t0 ops).done_weight : ℚ)) /
            (((runState maxT t0 ops).done_weight : ℚ) / (t - t0)))) := by
      simp only [Scheduler.guesstimate]
      rw [if_neg hc, if_neg hd, hstart]
    refine ⟨hres, ?_⟩
    apply div_nonneg
    · rw [sub_nonneg]
      exact_mod_cast hTD
    · apply le_of_lt
      apply div_pos _ htpos
      exact_mod_cast hdpos

/-- Witness for C4: ten unit-weight jobs scheduled, started and completed,
queried at elapsed time 1. -/
theorem claim_C4_witness :
    ((runState 10 0 scenarioTen).guesstimate 1).2 =
        Except.ok ((runState 10 0 scenarioTen).tasks_completed,
          (runState 10 0 scenarioTen).pending_tasks.length,
          (runState 10 0 scenarioTen).running_tasks.length,
          some ((((runState 10 0 scenarioTen).total_weight : ℚ) -
              ((runState 10 0 scenarioTen).done_weight : ℚ)) /
            (((runState 10 0 scenarioTen).done_weight : ℚ) / (1 - 0)))) ∧
      0 ≤ (((runState 10 0 scenarioTen).total_weight : ℚ) -
            ((runState 10 0 scenarioTen).done_weight : ℚ)) /
          (((runState 10 0 scenarioTen).done_weight : ℚ) / (1 - 0)) :=
  claim_C4_estimate.2 10 0 scenarioTen 1 scenarioTen_valid (by decide)
    (by decide) (by norm_num)
